import Mathlib

/-!
Shallow embedding of `src/shell.c` (simple-shell): an interactive command
interpreter with a read-tokenize-dispatch loop, four builtins
(`cd`, `help`, `echo`, `exit`), external-process launching with a
foreground wait, and a SIGINT handler that forwards the signal to the
active child and terminates the interpreter.
-/

namespace SimpleShell

/-! ### Tokenizer (`parseLine`, shell.c lines 137-176)

`parseLine` duplicates the line and repeatedly calls `strtok(·, " \n")`:
it skips runs of the delimiter characters space and newline and returns
the maximal runs of non-delimiter characters, in order. -/

/-- The delimiter set `" \n"` passed to `strtok`. -/
def isDelim (c : Char) : Bool := c == ' ' || c == '\n'

/-- One left-to-right scan of the line, as `strtok` performs it: `acc`
holds the characters of the token currently being read, in reverse;
a delimiter flushes a non-empty `acc` as a completed token. -/
def tokenizeAux : List Char → List Char → List (List Char)
  | [], acc => if acc = [] then [] else [acc.reverse]
  | c :: cs, acc =>
    if isDelim c then
      if acc = [] then tokenizeAux cs []
      else acc.reverse :: tokenizeAux cs []
    else tokenizeAux cs (c :: acc)

/-- String-level wrapper: the token array produced by `parseLine`. -/
def parseLine (line : String) : List String :=
  (tokenizeAux line.toList []).map (fun t => String.mk t)

/-- Splitting a line at every delimiter character, keeping the (possibly
empty) fields between consecutive delimiters. Stated from the spec's
words: the tokenizer "splits on runs of whitespace (space and newline),
discarding empty fields, preserving order", i.e. it is this field
splitting with the empty fields discarded. -/
def splitFields : List Char → List (List Char)
  | [] => [[]]
  | c :: cs =>
    match splitFields cs with
    | [] => [[]]
    | f :: fs => if isDelim c then [] :: f :: fs else (c :: f) :: fs

theorem splitFields_ne_nil (l : List Char) : splitFields l ≠ [] := by
  cases l with
  | nil => simp [splitFields]
  | cons c cs =>
    simp only [splitFields]
    cases h : splitFields cs with
    | nil => simp
    | cons f fs => by_cases hd : isDelim c <;> simp [hd]

theorem tokenizeAux_splitFields (l : List Char) : ∀ acc : List Char,
    tokenizeAux l acc =
      (if acc.reverse ++ (splitFields l).headD [] = []
        then []
        else [acc.reverse ++ (splitFields l).headD []])
      ++ ((splitFields l).tail.filter (fun f => !f.isEmpty)) := by
  induction l with
  | nil =>
    intro acc
    simp only [tokenizeAux, splitFields, List.headD, List.tail, List.filter,
      List.append_nil]
    by_cases h : acc = []
    · simp [h]
    · have : acc.reverse ≠ [] := by simpa using h
      simp [h, this]
  | cons c cs ih =>
    intro acc
    obtain ⟨f, fs, hcs⟩ : ∃ f fs, splitFields cs = f :: fs := by
      cases h : splitFields cs with
      | nil => exact absurd h (splitFields_ne_nil cs)
      | cons f fs => exact ⟨f, fs, rfl⟩
    simp only [tokenizeAux, splitFields, hcs]
    by_cases hd : isDelim c
    · simp only [hd, if_pos rfl, List.headD, List.tail]
      by_cases h : acc = []
      · subst h
        rw [ih []]
        simp only [List.reverse_nil, List.nil_append, List.headD, hcs]
        by_cases hf : f = [] <;> simp [hf, List.filter_cons]
      · have hne : acc.reverse ≠ [] := by simpa using h
        rw [ih []]
        simp only [List.reverse_nil, List.nil_append, List.headD, hcs,
          List.tail]
        simp only [if_neg h, if_neg hne]
        by_cases hf : f = [] <;> simp [hf, List.filter_cons, h]
    · simp only [hd, Bool.false_eq_true, if_false, List.headD, List.tail]
      rw [ih (c :: acc)]
      simp only [List.reverse_cons, hcs, List.headD, List.tail,
        List.append_assoc, List.cons_append, List.nil_append]

/-- The tokenizer equals: split at every delimiter, discard empty fields. -/
theorem tokenize_eq_filter_splitFields (l : List Char) :
    tokenizeAux l [] = (splitFields l).filter (fun f => !f.isEmpty) := by
  rw [tokenizeAux_splitFields l []]
  obtain ⟨f, fs, hl⟩ : ∃ f fs, splitFields l = f :: fs := by
    cases h : splitFields l with
    | nil => exact absurd h (splitFields_ne_nil l)
    | cons f fs => exact ⟨f, fs, rfl⟩
  simp only [hl, List.headD, List.tail, List.reverse_nil, List.nil_append]
  by_cases h : f = []
  · simp [h, List.filter]
  · have : ¬ f.isEmpty = true := by simpa [List.isEmpty_iff] using h
    simp [h, List.filter, this]

/-- An all-whitespace line tokenizes to the empty sequence. -/
theorem tokenize_all_delim (l : List Char) (h : ∀ c ∈ l, isDelim c = true) :
    tokenizeAux l [] = [] := by
  induction l with
  | nil => rfl
  | cons c cs ih =>
    have hc : isDelim c = true := h c (by simp)
    simp only [tokenizeAux, hc, if_pos rfl]
    exact ih (fun x hx => h x (by simp [hx]))

/-! ### Builtins (shell.c lines 31-45 and 253-308) -/

/-- The builtin command table (shell.c lines 33-37). -/
def builtin_commands : List String := ["cd", "help", "echo", "exit"]

/-- The cd builtin `simpleShellCd` (shell.c lines 258-273): if `args[1]` is present, call
`chdir(args[1])`; on failure print an error message; always return 1.
The filesystem is the parameter `chdir`: given the path argument it
yields the new working directory on success, or `none` on failure.
Result: (working directory after the call, lines printed, return value). -/
def simpleShellCd (chdir : String → Option String) (cwd : String)
    (args : List String) : String × List String × Int :=
  match args[1]? with
  | none => (cwd, [], 1)
  | some p =>
    match chdir p with
    | some newCwd => (newCwd, [], 1)
    | none => (cwd, ["cd failed, check your path\n"], 1)

/-- The help builtin `simpleShellHelp` (shell.c lines 277-281): print the command list,
return 1. -/
def simpleShellHelp (args : List String) : String × Int :=
  ("Commands available: cd, help, echo, exit\n", 1)

/-- The `while (args[i] != NULL)` loop of `simpleShellEcho`: each argument
is printed by `printf("%s ", arg)`, i.e. followed by one space. -/
def echoLoop : List String → String
  | [] => ""
  | a :: rest => a ++ " " ++ echoLoop rest

/-- The echo builtin `simpleShellEcho` (shell.c lines 285-300): print the arguments from
index 1 on, each followed by a space, then one newline; return 1. -/
def simpleShellEcho (args : List String) : String × Int :=
  (echoLoop (args.drop 1) ++ "\n", 1)

/-- The exit builtin `simpleShellExit` (shell.c lines 305-308): return 0, ending the main
loop. -/
def simpleShellExit (args : List String) : Int := 0

/-- Arguments joined by single spaces, no trailing separator. Stated from
the spec's words for `echo`: "prints each argument separated by a single
space". -/
def interSpaces : List String → String
  | [] => ""
  | [a] => a
  | a :: rest => a ++ " " ++ interSpaces rest

/-! ### Process launcher (`startProcess`, shell.c lines 179-225) -/

/-- A `waitpid` notification for the child, under `WUNTRACED` (so stopped
children are reported too). -/
inductive WaitStatus where
  | exited (code : Nat)
  | signaled (sig : Nat)
  | stopped (sig : Nat)
  deriving DecidableEq

/-- The test `WIFEXITED(s) || WIFSIGNALED(s)`: the states the wait loop of
`startProcess` accepts as final. -/
def isFinal : WaitStatus → Bool
  | .exited _ => true
  | .signaled _ => true
  | .stopped _ => false

/-- The wait loop (shell.c lines 216-218): call `waitpid` and repeat while
the status is neither exited nor signaled. `events` is the sequence of
notifications the kernel delivers; the loop returns the first final one,
or `none` if no final notification ever arrives (the loop blocks forever). -/
def waitLoop : List WaitStatus → Option WaitStatus
  | [] => none
  | s :: rest => if isFinal s then some s else waitLoop rest

/-- Parent branch of `startProcess` (shell.c lines 211-224): the global
`pid` is set to the fork result (recording the Active Child Handle),
then the wait loop runs; on a final status `pid` is reset to -1 and the
function returns 1. First component: the value recorded in the handle
while waiting. Second: `none` while blocked, otherwise the observed
final status, the handle value after reaping, and the return value. -/
def startProcessParent (childPid : Int) (events : List WaitStatus) :
    Int × Option (WaitStatus × Int × Int) :=
  (childPid, (waitLoop events).map (fun s => (s, -1, 1)))

/-- Child branch of `startProcess` (shell.c lines 192-202):
`execvp(args[0], args)` replaces the image with program `args[0]` and
argument vector exactly `args`. -/
def startProcessChild (args : List String) : String × List String :=
  (args.headD "", args)

/-! ### Dispatch (`executeCommand`, shell.c lines 229-248) -/

/-- What `executeCommand` does with a token array: nothing when
`args[0] == NULL`, run the matching builtin from the table, or fall
through to `startProcess`. -/
inductive Action where
  | noop
  | builtin (name : String) (args : List String)
  | launch (argv : List String)
  deriving DecidableEq

/-- The dispatcher `executeCommand` (shell.c lines 229-248): empty command returns
immediately; otherwise scan `builtin_commands` for a `strcmp` match and
call the handler; otherwise call `startProcess` with the tokens. -/
def executeCommand (args : List String) : Action :=
  match args.head? with
  | none => .noop
  | some c =>
    if builtin_commands.contains c then .builtin c args else .launch args

/-- The working directory and loop status resulting from one
`executeCommand` call, with each builtin's return value taken from its
model above; `startProcess` returns 1 (shell.c line 224). -/
def runCommandStatus (chdir : String → Option String) (cwd : String)
    (args : List String) : String × Int :=
  match executeCommand args with
  | .noop => (cwd, 1)
  | .builtin c as =>
    if c = "cd" then
      let r := simpleShellCd chdir cwd as
      (r.1, r.2.2)
    else if c = "help" then (cwd, (simpleShellHelp as).2)
    else if c = "echo" then (cwd, (simpleShellEcho as).2)
    else (cwd, simpleShellExit as)
  | .launch _ => (cwd, 1)

/-! ### Signal handler (`signalHandler`, shell.c lines 59-70) -/

/-- An observable effect of the signal handler. -/
inductive SigEffect where
  | print (s : String)
  | kill (target : Int) (sig : Int)
  deriving DecidableEq

/-- The interactive interrupt signal number. -/
def SIGINT : Int := 2

/-- The handler `signalHandler` (shell.c lines 59-70): print the termination notice,
`kill(pid, SIGINT)` if the global `pid` is not -1, then `exit(0)`. The
result is the effect list followed by the `exit` argument; returning an
exit code for every input models that the handler always terminates the
process and never returns to the loop. -/
def signalHandler (pid : Int) : List SigEffect × Int :=
  ([SigEffect.print "\nsimple-shell terminated\n"] ++
    (if pid ≠ -1 then [SigEffect.kill pid SIGINT] else []), 0)

/-! ### Token-array buffer (`parseLine`, shell.c lines 141-151)

`parseLine` mallocs `sizeof(char*) * (buffer_size / 2)` bytes for the
token array but then runs `memset(buffer, 0, buffer_size/2)`: only
`buffer_size/2` BYTES are zeroed, not `buffer_size/2` pointer slots. -/

/-- The value of `sizeof(char*)` on the 64-bit target. -/
def ptrSize : Nat := 8

/-- The initial input buffer size (shell.c line 10). -/
def buffer_size : Nat := 80

/-- Contents of one pointer slot of the token array after `parseLine`. -/
inductive Slot where
  | token (t : List Char)
  | null
  | junk
  deriving DecidableEq

/-- Slot `i` occupies bytes `[i*ptrSize, (i+1)*ptrSize)`; it reads as a
null pointer only when `memset` covered all of its bytes. -/
def slotZeroed (bytesZeroed i : Nat) : Bool := (i + 1) * ptrSize ≤ bytesZeroed

/-- Slot `i` of the token array after `parseLine` stored `tokens` into
slots `0..tokens.length-1` of a buffer whose first `bytesZeroed` bytes
were zeroed: a written token, a zeroed (null) slot, or uninitialized
malloc memory. -/
def slotAfterParse (bytesZeroed : Nat) (tokens : List (List Char))
    (i : Nat) : Slot :=
  match tokens.get? i with
  | some t => .token t
  | none => if slotZeroed bytesZeroed i then .null else .junk

/-! ### Heap model for `parseLine`'s duplication (shell.c lines 153-170)

`parseLine` calls `strdup(line)` and hands only the duplicate to
`strtok`, which mutates its argument in place (writing NUL over the
delimiter that ends each token). -/

/-- A heap of character buffers addressed by allocation order. -/
structure Heap where
  mem : Nat → List Char
  next : Nat

/-- Read the buffer at pointer `p`. -/
def Heap.read (h : Heap) (p : Nat) : List Char := h.mem p

/-- Overwrite the buffer at pointer `p`. -/
def Heap.write (h : Heap) (p : Nat) (v : List Char) : Heap :=
  ⟨fun q => if q = p then v else h.mem q, h.next⟩

/-- Allocate a fresh buffer holding `v`; returns the heap and the new
pointer. -/
def Heap.alloc (h : Heap) (v : List Char) : Heap × Nat :=
  (⟨fun q => if q = h.next then v else h.mem q, h.next + 1⟩, h.next)

/-- The in-place mutation the `strtok` loop performs on its buffer: while
inside a token, the delimiter that terminates it is overwritten with NUL;
delimiters between tokens are left as they are. -/
def strtokWrite : Bool → List Char → List Char
  | _, [] => []
  | inTok, c :: cs =>
    if isDelim c then
      (if inTok then (Char.ofNat 0) else c) :: strtokWrite false cs
    else c :: strtokWrite true cs

/-- The function `parseLine` on the heap (shell.c lines 137-176): duplicate the line at
a fresh pointer (`strdup`), run the mutating `strtok` scan on the
duplicate only, and return the heap, the duplicate's pointer and the
extracted tokens. -/
def parseLineHeap (h : Heap) (lp : Nat) : Heap × Nat × List (List Char) :=
  let a := h.alloc (h.read lp)
  let h2 := a.1.write a.2 (strtokWrite false (a.1.read a.2))
  (h2, a.2, tokenizeAux (h.read lp) [])

/-! ### Line reader and main loop (shell.c lines 79-133) -/

/-- The reader `readLine` (shell.c lines 123-133): `malloc` a buffer and call
`getline`. The return value of `getline` is never inspected: on
end-of-input (`stdin` exhausted) the function still returns the buffer,
whose contents are whatever `junk` the allocation left there, so the
result is never the null pointer. -/
def readLine (stdin : List String) (junk : String) :
    Option String × List String :=
  match stdin with
  | [] => (some junk, [])
  | l :: ls => (some l, ls)

/-- The loop `mainLoop` followed by the `return 0` of `main` (shell.c lines 48-56 and
79-119), restricted to the data that decides termination: cwd and loop
status. Each iteration reads a line, skips execution only if the line is
the null pointer, otherwise parses and executes it; the loop ends when
the status becomes 0 and the process then exits with code 0. `fuel`
bounds the number of iterations modelled; `none` means the loop is still
running after `fuel` iterations. -/
def mainLoopRun (chdir : String → Option String) :
    Nat → List String → String → String → Option Int
  | 0, _, _, _ => none
  | fuel + 1, stdin, junk, cwd =>
    let r := readLine stdin junk
    match r.1 with
    | none => mainLoopRun chdir fuel r.2 junk cwd
    | some l =>
      let s := runCommandStatus chdir cwd (parseLine l)
      if s.2 = 0 then some 0
      else mainLoopRun chdir fuel r.2 junk s.1

/-! ### Helper lemmas -/

theorem echoLoop_eq_interSpaces (l : List String) :
    echoLoop l = (if l = [] then "" else interSpaces l ++ " ") := by
  induction l with
  | nil => rfl
  | cons a rest ih =>
    cases rest with
    | nil => simp [echoLoop, interSpaces]
    | cons b rs =>
      have h2 : interSpaces (a :: b :: rs) = a ++ " " ++ interSpaces (b :: rs) :=
        rfl
      show a ++ " " ++ echoLoop (b :: rs) = _
      rw [ih]
      simp [h2, String.append_assoc]

theorem waitLoop_eq_some (events : List WaitStatus) (s : WaitStatus)
    (h : waitLoop events = some s) : isFinal s = true ∧ s ∈ events := by
  induction events with
  | nil => simp [waitLoop] at h
  | cons e rest ih =>
    by_cases he : isFinal e = true
    · simp [waitLoop, he] at h
      subst h
      exact ⟨he, by simp⟩
    · simp [waitLoop, he] at h
      obtain ⟨h1, h2⟩ := ih h
      exact ⟨h1, by simp [h2]⟩

theorem waitLoop_isSome (events : List WaitStatus)
    (h : ∃ s ∈ events, isFinal s = true) : (waitLoop events).isSome = true := by
  induction events with
  | nil => simp at h
  | cons e rest ih =>
    by_cases he : isFinal e = true
    · simp [waitLoop, he]
    · simp [waitLoop, he]
      simp only [List.mem_cons] at h
      obtain ⟨s, hs, hfin⟩ := h
      rcases hs with rfl | hs
      · exact absurd hfin he
      · exact ih ⟨s, hs, hfin⟩

theorem waitLoop_eq_none (events : List WaitStatus)
    (h : ∀ s ∈ events, isFinal s = false) : waitLoop events = none := by
  induction events with
  | nil => rfl
  | cons e rest ih =>
    have he : isFinal e = false := h e (by simp)
    simp [waitLoop, he]
    exact ih (fun s hs => h s (by simp [hs]))

/-! ### Claim theorems -/

/-- C1: the claim (the corrected contract of spec sections 4.1, 4.6 and 9)
says end-of-input transitions the Dispatch Loop to STOPPED with exit code
0, but the code never does: `readLine` ignores the -1 that `getline`
returns at end-of-stream and hands back the malloc'd buffer, which is
never the null pointer, so `mainLoop`'s only line check cannot fire; with
stdin exhausted from the start (and the untouched buffer reading as an
empty string) the loop re-prompts forever and never terminates, for any
amount of fuel. -/
theorem c1_eof_never_stops_loop (chdir : String → Option String)
    (fuel : Nat) (cwd : String) (stdin : List String) (junk : String) :
    (readLine stdin junk).1.isSome = true ∧
      mainLoopRun chdir fuel [] "" cwd = none := by
  constructor
  · cases stdin <;> rfl
  · induction fuel generalizing cwd with
    | zero => rfl
    | succ n ih => exact ih cwd

/-- C2: the tokenizer splits on runs of the whitespace characters space
and newline, discards empty fields and preserves order (it equals
splitting at every delimiter and filtering out the empty fields); the
line `"  echo   a  b \n"` yields exactly `["echo","a","b"]`; an
all-whitespace line yields the empty sequence; and executing the empty
token sequence is a no-op that leaves the working directory alone and
returns the continue status 1. -/
theorem c2_tokenizer_splits_on_whitespace (l : List Char)
    (chdir : String → Option String) (cwd : String) :
    tokenizeAux l [] = (splitFields l).filter (fun f => !f.isEmpty) ∧
      parseLine "  echo   a  b \n" = ["echo", "a", "b"] ∧
      ((∀ c ∈ l, isDelim c = true) → tokenizeAux l [] = []) ∧
      executeCommand [] = Action.noop ∧
      runCommandStatus chdir cwd [] = (cwd, 1) := by
  refine ⟨tokenize_eq_filter_splitFields l, by decide,
    tokenize_all_delim l, rfl, rfl⟩

/-- C2 witness: at the all-whitespace line `"   "` the tokenizer yields
`[]` and executing `[]` returns the continue status. -/
theorem c2_tokenizer_witness :
    tokenizeAux "   ".toList [] = [] ∧
      runCommandStatus (fun _ => none) "/" [] = ("/", 1) :=
  ⟨(c2_tokenizer_splits_on_whitespace "   ".toList (fun _ => none) "/").2.2.1
      (by decide),
    (c2_tokenizer_splits_on_whitespace "   ".toList (fun _ => none) "/").2.2.2.2⟩

/-- C3 counterexample: `echo a b` does not print the five characters
`"a b\n"`; the loop prints every argument with `printf("%s ", ·)`, so the
output is the six characters `"a b \n"`, with a space before the
newline. -/
theorem c3_echo_counterexample :
    (simpleShellEcho ["echo", "a", "b"]).1 = "a b \n" ∧
      (simpleShellEcho ["echo", "a", "b"]).1 ≠ "a b\n" := by
  decide

/-- C3 amended: `echo` prints its arguments separated by single spaces
with one trailing space when at least one argument is present, followed
by exactly one newline; with zero arguments it prints exactly one
newline; and it always returns the continue status 1. -/
theorem c3_echo_amended (args : List String) :
    (simpleShellEcho args).1 =
        (if args.drop 1 = [] then "" else interSpaces (args.drop 1) ++ " ")
          ++ "\n" ∧
      (args.drop 1 = [] → (simpleShellEcho args).1 = "\n") ∧
      (simpleShellEcho args).2 = 1 := by
  refine ⟨?_, ?_, rfl⟩
  · simp [simpleShellEcho, echoLoop_eq_interSpaces]
  · intro h
    simp [simpleShellEcho, echoLoop_eq_interSpaces, h]

/-- C3 amended witness: `echo` with zero arguments prints exactly one
newline. -/
theorem c3_echo_amended_witness : (simpleShellEcho ["echo"]).1 = "\n" :=
  (c3_echo_amended ["echo"]).2.1 (by decide)

/-- C4: when a line dispatches to the external path, the argument vector
`execvp` receives is exactly the token sequence `parseLine` produced for
that line, with no elements added or removed, and element 0 is the
program name passed to `execvp`. -/
theorem c4_child_argv_roundtrip (line : String) (argv : List String)
    (h : executeCommand (parseLine line) = Action.launch argv) :
    argv = parseLine line ∧
      (startProcessChild argv).2 = parseLine line ∧
      (startProcessChild argv).1 = (parseLine line).headD "" := by
  have harg : argv = parseLine line := by
    unfold executeCommand at h
    cases hh : (parseLine line).head? with
    | none => rw [hh] at h; exact absurd h (by simp)
    | some c =>
      rw [hh] at h
      by_cases hb : c ∈ builtin_commands
      · simp [hb] at h
      · simp [hb] at h
        exact h.symm
  subst harg
  exact ⟨rfl, rfl, rfl⟩

/-- C4 witness: for the line `"ls -l"` the dispatched argument vector is
exactly `["ls","-l"]`, the tokenizer's output. -/
theorem c4_child_argv_roundtrip_witness :
    ["ls", "-l"] = parseLine "ls -l" ∧
      (startProcessChild ["ls", "-l"]).2 = parseLine "ls -l" ∧
      (startProcessChild ["ls", "-l"]).1 = (parseLine "ls -l").headD "" :=
  c4_child_argv_roundtrip "ls -l" ["ls", "-l"] (by decide)

/-- C5: the parent records the fork result in the Active Child Handle;
the wait loop treats a stopped notification as not final and keeps
waiting; whatever final status the wait loop returns was delivered by the
kernel and is exited-or-signaled, and observing it clears the handle to
-1 and returns the continue status 1; if some delivered notification is
final the wait loop does return; and if no delivered notification is
final the call stays blocked. -/
theorem c5_launch_records_waits_reaps (childPid : Int)
    (events : List WaitStatus) :
    (startProcessParent childPid events).1 = childPid ∧
      (∀ sig rest, waitLoop (WaitStatus.stopped sig :: rest) = waitLoop rest) ∧
      (∀ s, waitLoop events = some s →
        isFinal s = true ∧ s ∈ events ∧
          (startProcessParent childPid events).2 = some (s, -1, 1)) ∧
      ((∃ s ∈ events, isFinal s = true) → (waitLoop events).isSome = true) ∧
      ((∀ s ∈ events, isFinal s = false) →
        (startProcessParent childPid events).2 = none) := by
  refine ⟨rfl, fun sig rest => by simp [waitLoop, isFinal], ?_, ?_, ?_⟩
  · intro s hs
    obtain ⟨h1, h2⟩ := waitLoop_eq_some events s hs
    exact ⟨h1, h2, by simp [startProcessParent, hs]⟩
  · exact waitLoop_isSome events
  · intro h
    simp [startProcessParent, waitLoop_eq_none events h]

/-- C5 witness: with child pid 7 and kernel notifications
[stopped, exited 0], the handle records 7, the stopped notification is
skipped, the exited status is reaped with the handle cleared to -1 and
return value 1; with only a stopped notification the call stays
blocked. -/
theorem c5_launch_records_waits_reaps_witness :
    (startProcessParent 7 [WaitStatus.stopped 19, WaitStatus.exited 0]).1 = 7 ∧
      (isFinal (WaitStatus.exited 0) = true ∧
        WaitStatus.exited 0 ∈ [WaitStatus.stopped 19, WaitStatus.exited 0] ∧
        (startProcessParent 7 [WaitStatus.stopped 19, WaitStatus.exited 0]).2 =
          some (WaitStatus.exited 0, -1, 1)) ∧
      (waitLoop [WaitStatus.stopped 19, WaitStatus.exited 0]).isSome = true ∧
      (startProcessParent 7 [WaitStatus.stopped 19]).2 = none :=
  ⟨(c5_launch_records_waits_reaps 7 _).1,
    (c5_launch_records_waits_reaps 7
        [WaitStatus.stopped 19, WaitStatus.exited 0]).2.2.1
      (WaitStatus.exited 0) (by decide),
    (c5_launch_records_waits_reaps 7
        [WaitStatus.stopped 19, WaitStatus.exited 0]).2.2.2.1
      ⟨WaitStatus.exited 0, by decide, by decide⟩,
    (c5_launch_records_waits_reaps 7 [WaitStatus.stopped 19]).2.2.2.2
      (by decide)⟩

/-- C6: on an interrupt the handler first prints the termination notice;
it forwards SIGINT to the recorded child exactly when the Active Child
Handle is non-empty (`pid ≠ -1`) and emits no kill at all otherwise; any
kill it emits targets the recorded child with SIGINT; and for every
handle value the handler ends the whole process (it yields an exit code,
never a return to the Dispatch Loop). -/
theorem c6_interrupt_relay (pid : Int) :
    (signalHandler pid).1.head? =
        some (SigEffect.print "\nsimple-shell terminated\n") ∧
      (pid ≠ -1 → (signalHandler pid).1 =
        [SigEffect.print "\nsimple-shell terminated\n",
          SigEffect.kill pid SIGINT]) ∧
      (pid = -1 → (signalHandler pid).1 =
        [SigEffect.print "\nsimple-shell terminated\n"]) ∧
      (∀ t s, SigEffect.kill t s ∈ (signalHandler pid).1 →
        pid ≠ -1 ∧ t = pid ∧ s = SIGINT) ∧
      (signalHandler pid).2 = 0 := by
  by_cases h : pid = -1
  · subst h
    refine ⟨rfl, fun hc => absurd rfl hc, fun _ => rfl, ?_, rfl⟩
    intro t s hm
    simp [signalHandler] at hm
  · refine ⟨rfl, fun _ => by simp [signalHandler, h], fun hc => absurd hc h,
      ?_, rfl⟩
    intro t s hm
    simp [signalHandler, h] at hm
    exact ⟨h, hm.1, hm.2⟩

/-- C6 witness: with child 5 recorded the handler prints the notice and
forwards SIGINT to 5; with no child recorded it prints the notice and
emits no kill. -/
theorem c6_interrupt_relay_witness :
    (signalHandler 5).1 =
        [SigEffect.print "\nsimple-shell terminated\n",
          SigEffect.kill 5 SIGINT] ∧
      (signalHandler (-1)).1 =
        [SigEffect.print "\nsimple-shell terminated\n"] :=
  ⟨(c6_interrupt_relay 5).2.1 (by decide),
    (c6_interrupt_relay (-1)).2.2.1 rfl⟩

/-- C7: `cd` with no path argument changes nothing and prints nothing;
with a path whose `chdir` fails it leaves the working directory
unchanged, prints the error message and still returns the continue
status; with a path whose `chdir` succeeds it moves to the new working
directory; and on every input its return value is the continue status 1,
never a stop and never a process exit. -/
theorem c7_cd_recoverable (chdir : String → Option String) (cwd : String)
    (args : List String) :
    (args[1]? = none → simpleShellCd chdir cwd args = (cwd, [], 1)) ∧
      (∀ p, args[1]? = some p → chdir p = none →
        simpleShellCd chdir cwd args =
          (cwd, ["cd failed, check your path\n"], 1)) ∧
      (∀ p c2, args[1]? = some p → chdir p = some c2 →
        simpleShellCd chdir cwd args = (c2, [], 1)) ∧
      (simpleShellCd chdir cwd args).2.2 = 1 := by
  refine ⟨?_, ?_, ?_, ?_⟩
  · intro h; simp [simpleShellCd, h]
  · intro p h1 h2; simp [simpleShellCd, h1, h2]
  · intro p c2 h1 h2; simp [simpleShellCd, h1, h2]
  · cases h1 : args[1]? with
    | none => simp [simpleShellCd, h1]
    | some p =>
      cases h2 : chdir p with
      | none => simp [simpleShellCd, h1, h2]
      | some c2 => simp [simpleShellCd, h1, h2]

/-- C7 witness: in a filesystem where only `/tmp` exists, `cd` with no
argument is a no-op, `cd /nope` reports the error and keeps the working
directory with status continue, and `cd /tmp` moves to `/tmp`. -/
theorem c7_cd_recoverable_witness :
    simpleShellCd (fun p => if p = "/tmp" then some "/tmp" else none) "/"
        ["cd"] = ("/", [], 1) ∧
      simpleShellCd (fun p => if p = "/tmp" then some "/tmp" else none) "/"
        ["cd", "/nope"] = ("/", ["cd failed, check your path\n"], 1) ∧
      simpleShellCd (fun p => if p = "/tmp" then some "/tmp" else none) "/"
        ["cd", "/tmp"] = ("/tmp", [], 1) :=
  ⟨(c7_cd_recoverable _ "/" ["cd"]).1 (by decide),
    (c7_cd_recoverable _ "/" ["cd", "/nope"]).2.1 "/nope" (by decide)
      (by decide),
    (c7_cd_recoverable _ "/" ["cd", "/tmp"]).2.2.1 "/tmp" "/tmp" (by decide)
      (by decide)⟩

/-- C8: `parseLine` zeroes only `buffer_size/2` bytes of the token
array, so after tokenizing a line into `n` tokens the slot at index `n`
is a guaranteed NULL sentinel exactly when `n * sizeof(char*)` is below
`buffer_size/2` bytes (the multiple-of-8 boundary makes the strict bound
equivalent to full coverage of slot `n`); when the token count reaches
that bound, the slot after the last token is uninitialized malloc memory
and no NULL terminator is guaranteed. -/
theorem c8_null_sentinel_bound (line : String) :
    ((tokenizeAux line.toList []).length * ptrSize < buffer_size / 2 →
        slotAfterParse (buffer_size / 2) (tokenizeAux line.toList [])
          (tokenizeAux line.toList []).length = Slot.null) ∧
      (buffer_size / 2 ≤ (tokenizeAux line.toList []).length * ptrSize →
        slotAfterParse (buffer_size / 2) (tokenizeAux line.toList [])
          (tokenizeAux line.toList []).length = Slot.junk) := by
  have hget : (tokenizeAux line.toList []).get?
      (tokenizeAux line.toList []).length = none :=
    List.get?_len_le (Nat.le_refl _)
  constructor
  · intro h
    have hz : slotZeroed (buffer_size / 2)
        (tokenizeAux line.toList []).length = true := by
      simp only [slotZeroed, ptrSize, buffer_size] at h ⊢
      simp only [decide_eq_true_eq]
      omega
    simp only [String.toList] at hget hz
    simp [slotAfterParse, hget, hz]
  · intro h
    have hz : slotZeroed (buffer_size / 2)
        (tokenizeAux line.toList []).length = false := by
      simp only [slotZeroed, ptrSize, buffer_size] at h ⊢
      simp only [decide_eq_false_iff_not]
      omega
    simp only [String.toList] at hget hz
    simp [slotAfterParse, hget, hz]

/-- C8 witness: `"echo a"` has 2 tokens and slot 2 is the NULL sentinel;
`"a b c d e"` has 5 tokens, `5 * 8` reaches `80/2 = 40`, and the slot
after the last token is uninitialized memory, not NULL. -/
theorem c8_null_sentinel_bound_witness :
    slotAfterParse (buffer_size / 2) (tokenizeAux "echo a".toList [])
        (tokenizeAux "echo a".toList []).length = Slot.null ∧
      slotAfterParse (buffer_size / 2) (tokenizeAux "a b c d e".toList [])
        (tokenizeAux "a b c d e".toList []).length = Slot.junk :=
  ⟨(c8_null_sentinel_bound "echo a").1 (by decide),
    (c8_null_sentinel_bound "a b c d e").2 (by decide)⟩

/-- C9: `parseLine` never modifies the line it is given: it duplicates
the line at a fresh allocation (`strdup`) and the mutating `strtok` scan
runs only on the duplicate, which is a different pointer, so the buffer
the Dispatch Loop owns reads back byte-for-byte unchanged. -/
theorem c9_parseLine_preserves_line (h : Heap) (lp : Nat)
    (hvalid : lp < h.next) :
    (parseLineHeap h lp).1.read lp = h.read lp ∧
      (parseLineHeap h lp).2.1 ≠ lp := by
  have hne : lp ≠ h.next := Nat.ne_of_lt hvalid
  constructor
  · simp [parseLineHeap, Heap.alloc, Heap.write, Heap.read, hne]
  · simp [parseLineHeap, Heap.alloc]
    omega

/-- C9 witness: on a concrete heap holding the line `"echo a"` at
pointer 0, the line is unchanged after `parseLine` and the duplicate
lives at a different pointer. -/
theorem c9_parseLine_preserves_line_witness :
    (parseLineHeap ⟨fun q => if q = 0 then "echo a".toList else [], 1⟩
        0).1.read 0 =
      Heap.read ⟨fun q => if q = 0 then "echo a".toList else [], 1⟩ 0 :=
  (c9_parseLine_preserves_line
    ⟨fun q => if q = 0 then "echo a".toList else [], 1⟩ 0 (by decide)).1

/-- C10: the interrupt handler always calls `exit(0)`, whatever the
Active Child Handle holds, so interrupt-driven termination carries the
same clean exit code 0 that the `exit`-builtin shutdown produces (where
`mainLoop` returns and `main` returns 0). -/
theorem c10_interrupt_exit_code_zero (pid : Int)
    (chdir : String → Option String) (junk cwd : String) :
    (signalHandler pid).2 = 0 ∧
      mainLoopRun chdir 1 ["exit"] junk cwd = some ((signalHandler pid).2) :=
  ⟨rfl, rfl⟩

end SimpleShell
